import Mathlib

/-!
Verification of the GopherJS core: the scope/name allocator and
instantiation naming from `compiler/utils.go`, and the value marshaling
bridge (`$externalize` / `$internalize`) from the runtime prelude
(`src/unnamed/part_001`). Each subsystem is shallowly embedded below,
translated from the source, and the spec claims are settled as theorems.
-/

namespace GopherJS

/-! ## JavaScript numeric primitives

JS bitwise operators convert operands with ToInt32 / ToUint32 and NaN
converts to 0. A JS number that holds an integral value is modeled as
`Int`; `Option Int` models an integer-or-NaN (`none` = NaN). Host numbers
in general are modeled as `Option ℚ` (`none` = NaN); this represents
IEEE doubles exactly on every value the claims touch. -/

/-- ToUint32 of an integer-valued JS number: the value modulo 2^32. -/
def jsToUint32 (n : Int) : Int := n % 4294967296

/-- ToInt32 of an integer-valued JS number: low 32 bits, sign-extended. -/
def jsToInt32 (n : Int) : Int :=
  let u := n % 4294967296
  if u < 2147483648 then u else u - 4294967296

/-- ToInt32 where the operand may be NaN (ToInt32(NaN) = 0). -/
def jsToInt32N (n : Option Int) : Int :=
  match n with
  | none => 0
  | some k => jsToInt32 k

/-- The JS `<<` operator on an integer-or-NaN left operand and a literal
shift count below 32: ToInt32 both, shift, wrap to int32. -/
def jsShl (n : Option Int) (k : Nat) : Int := jsToInt32 (jsToInt32N n * 2 ^ k)

/-- The JS `>>` (arithmetic shift right) operator: ToInt32 then floor
division by 2^k. With `Int` division (Euclidean, positive divisor) the
quotient is the floor, matching the sign-propagating shift. -/
def jsSar (n : Option Int) (k : Nat) : Int := jsToInt32N n / 2 ^ k

/-- ToUint32 where the operand may be NaN (ToUint32(NaN) = 0). -/
def jsToUint32N (n : Option Int) : Int :=
  match n with
  | none => 0
  | some k => jsToUint32 k

/-- The JS `>>>` (logical shift right) operator: ToUint32 then division. -/
def jsShr (n : Option Int) (k : Nat) : Int := jsToUint32N n / 2 ^ k

/-- Truncation of a rational toward zero, the result of JS `parseInt` on a
(finite, decimal-printed) number: `parseInt(3.9) = 3`, `parseInt(-3.9) = -3`. -/
def ratTrunc (q : ℚ) : Int := q.num.tdiv q.den

/-- JS `parseInt` on a host number that may be NaN; NaN stringifies to
"NaN" which parses back to NaN. -/
def jsParseIntNum (q : Option ℚ) : Option Int := q.map ratTrunc

end GopherJS

namespace GopherJS.Runtime

/-! ## The marshaling bridge fragment

Shallow embedding of `$externalize` and `$internalize` from
`src/unnamed/part_001`, restricted to the descriptor kinds the claims
need: the opaque host handle `*js.Object` (`$jsObjectPtr`) and its element
type, `$kindBool`, `$kindInt`, `$kindInt8`, `$kindPtr`, `$kindInterface`
and `$kindStruct`. The time-package special case is not modeled
(`$packages["time"]` is absent), no `makeWrapper` is supplied, no modeled
host value carries `__internal_object__`, and the seen-set is omitted:
in this fragment it is only ever written by the `$kindMap` case, which is
outside the fragment, so every lookup in it misses (the seen-set itself is
verified in the `SeenSet` section below). -/

mutual
/-- A kind descriptor (`t` in the source). `jsObjectPtr` is the well-known
`$jsObjectPtr` descriptor and `jsObject` is `$jsObjectPtr.elem`; both are
compared by identity in the source before the kind dispatch, which the
dedicated constructors model. An interface descriptor carries the size of
its method set (`t.methods.length`). -/
inductive Desc where
  | jsObject
  | jsObjectPtr
  | boolD
  | intD
  | int8D
  | ptrD (elem : Desc)
  | ifaceD (methods : Nat)
  | structD (fields : Flds)
  deriving DecidableEq
/-- The ordered field list of a struct descriptor: external name `name`,
storage key `prop`, exported flag and field descriptor, as in `t.fields`. -/
inductive Flds where
  | nil
  | cons (name prop : String) (exported : Bool) (typ : Desc) (rest : Flds)
  deriving DecidableEq
end

mutual
/-- A host-native (JavaScript) value. `num none` is NaN. Object properties
are kept in insertion order. -/
inductive HV where
  | null
  | undef
  | bool (b : Bool)
  | num (n : Option ℚ)
  | obj (props : HProps)
  deriving DecidableEq
/-- Ordered property list of a host object. -/
inductive HProps where
  | nil
  | cons (key : String) (val : HV) (rest : HProps)
  deriving DecidableEq
end

mutual
/-- A compiled (GopherJS) value. `vjsObj h` is a non-nil `*js.Object`
handle wrapping the host value `h`; `vptrNil` is the `t.nil` sentinel of a
pointer type; `vifaceNil` is `$ifaceNil`. -/
inductive CV where
  | vnum (n : Option ℚ)
  | vbool (b : Bool)
  | vjsObj (h : HV)
  | vptrNil
  | vptr (target : CV)
  | vstruct (fields : CFlds)
  | vifaceNil
  deriving DecidableEq
/-- The stored fields of a compiled struct value, keyed by `prop`. -/
inductive CFlds where
  | nil
  | cons (prop : String) (v : CV) (rest : CFlds)
  deriving DecidableEq
end

/-- A marshaling outcome that is not a normal return. `cannotInternalize`
and `cannotExternalize` are `$throwRuntimeError` calls with the matching
message; `jsObjectValue` is the fatal
"cannot internalize js.Object, use *js.Object instead"; `hostTypeError`
is a native TypeError (property access on null/undefined); `unmodeled`
marks source behavior outside this fragment (never reached by the
claims). -/
inductive RErr where
  | cannotInternalize
  | cannotExternalize
  | jsObjectValue
  | hostTypeError
  | unmodeled
  deriving DecidableEq

/-- Property read `v[key]` on a host value: a missing property is
`undefined`, property access on a primitive number or boolean yields
`undefined` (none of its properties are modeled), and property access on
null or undefined throws a TypeError. -/
def HProps.get : HProps → String → HV
  | .nil, _ => .undef
  | .cons k v rest, key => if k = key then v else rest.get key

/-- Property read on a host value (see `HProps.get`). -/
def HV.getProp : HV → String → Except RErr HV
  | .obj ps, key => .ok (ps.get key)
  | .num _, _ => .ok .undef
  | .bool _, _ => .ok .undef
  | .null, _ => .error .hostTypeError
  | .undef, _ => .error .hostTypeError

/-- Field read `v[f.prop]` on a compiled struct value. -/
def CFlds.get : CFlds → String → Option CV
  | .nil, _ => none
  | .cons p v rest, prop => if p = prop then some v else rest.get prop

/-- Field write `n[f.prop] = o` on a compiled struct value: replaces the
first field with that storage key, or appends. -/
def CFlds.set : CFlds → String → CV → CFlds
  | .nil, prop, o => .cons prop o .nil
  | .cons p v rest, prop, o =>
    if p = prop then .cons p o rest else .cons p v (rest.set prop o)

mutual
/-- The zero value of a descriptor, as produced by `new t.ptr()` (struct
constructors zero-initialize omitted fields) and `t.zero()`. The zero of
`jsObject` itself never arises (the type cannot be internalized). -/
def Desc.zero : Desc → CV
  | .jsObject => .vjsObj .null
  | .jsObjectPtr => .vptrNil
  | .boolD => .vbool false
  | .intD => .vnum (some 0)
  | .int8D => .vnum (some 0)
  | .ptrD _ => .vptrNil
  | .ifaceD _ => .vifaceNil
  | .structD fs => .vstruct (zeroFlds fs)
/-- Zero values of a struct field list. -/
def zeroFlds : Flds → CFlds
  | .nil => .nil
  | .cons _ prop _ typ rest => .cons prop typ.zero (zeroFlds rest)
end

/-- JS `parseInt` applied to a host value, as in the integer cases of
`$internalize`: numbers truncate toward zero (NaN stays NaN); null,
undefined, booleans and plain objects stringify to text with no leading
digits, hence NaN. -/
def jsParseInt : HV → Option Int
  | .num q => jsParseIntNum q
  | _ => none

mutual
/-- The `searchJsObject` closure local to the `$kindStruct` case of
`$externalize` (src/unnamed/part_001 lines 108-129): walks the first-field
chain of the compiled value, dereferencing pointers, and returns the
embedded host handle if the chain reaches `$jsObjectPtr`; `none` is the
`noJsObject` sentinel. The source also recurses through a non-nil
interface dynamic value; interface dynamic values are outside this
fragment, so that case (and any kind/value mismatch, impossible for
well-typed values) yields `none` here. -/
def externalizeSearchJsObject (v : CV) : Desc → Option HV
  | .jsObjectPtr =>
    match v with
    | .vjsObj h => some h
    | _ => none
  | .ptrD elem =>
    match v with
    | .vptrNil => none
    | .vptr w => externalizeSearchJsObject w elem
    | _ => none
  | .structD .nil => none
  | .structD (.cons _ prop _ typ _) =>
    match v with
    | .vstruct fs =>
      match fs.get prop with
      | some w => externalizeSearchJsObject w typ
      | none => none
    | _ => none
  | _ => none
end

mutual
/-- The `$externalize` function (src/unnamed/part_001 lines 23-150) on the
modeled fragment. Pass-through kinds return the compiled representation
unchanged; structs first try the host-handle promotion search, then build
a plain host object from the exported fields (`makeWrapper` is not
supplied). The interface case externalizes `$ifaceNil` to null; dynamic
interface values are outside the fragment. -/
def externalize (v : CV) : Desc → Except RErr HV
  | .jsObjectPtr =>
    match v with
    | .vjsObj h => .ok h
    | _ => .error .unmodeled
  | .boolD =>
    match v with
    | .vbool b => .ok (.bool b)
    | _ => .error .unmodeled
  | .intD =>
    match v with
    | .vnum n => .ok (.num n)
    | _ => .error .unmodeled
  | .int8D =>
    match v with
    | .vnum n => .ok (.num n)
    | _ => .error .unmodeled
  | .ptrD elem =>
    match v with
    | .vptrNil => .ok .null
    | .vptr w => externalize w elem
    | _ => .error .unmodeled
  | .ifaceD _ =>
    match v with
    | .vifaceNil => .ok .null
    | _ => .error .unmodeled
  | .structD fs =>
    match externalizeSearchJsObject v (.structD fs) with
    | some o => .ok o
    | none =>
      match v with
      | .vstruct cfs =>
        match externalizeFields cfs fs with
        | .ok props => .ok (.obj props)
        | .error e => .error e
      | _ => .error .unmodeled
  | .jsObject => .error .unmodeled
/-- The exported-fields loop of the `$kindStruct` case of `$externalize`
(lines 139-147): one property per exported field, keyed by the external
name, each value recursively externalized; unexported fields are
omitted. -/
def externalizeFields (cfs : CFlds) : Flds → Except RErr HProps
  | .nil => .ok .nil
  | .cons name prop exported typ rest =>
    if exported then
      match cfs.get prop with
      | some w =>
        match externalize w typ with
        | .ok h =>
          match externalizeFields cfs rest with
          | .ok props => .ok (.cons name h props)
          | .error e => .error e
        | .error e => .error e
      | none => .error .unmodeled
    else
      externalizeFields cfs rest
end

mutual
/-- The `searchJsObject` closure local to the `$kindStruct` case of
`$internalize` (src/unnamed/part_001 lines 363-388): walks the first-field
chain of the target descriptor only. Reaching `$jsObjectPtr` adopts the
whole incoming host value as the handle; reaching `$jsObjectPtr.elem` is
the fatal "cannot internalize js.Object" error; a struct level allocates a
zero instance and stores the inner result into its first field; a pointer
level is transparent. -/
def internalizeSearchJsObject (v : HV) : Desc → Except RErr (Option CV)
  | .jsObjectPtr => .ok (some (.vjsObj v))
  | .jsObject => .error .jsObjectValue
  | .ptrD elem => internalizeSearchJsObject v elem
  | .structD .nil => .ok none
  | .structD (.cons name prop exported typ rest) =>
    match internalizeSearchJsObject v typ with
    | .error e => .error e
    | .ok none => .ok none
    | .ok (some o) =>
      .ok (some (.vstruct ((zeroFlds (.cons name prop exported typ rest)).set prop o)))
  | _ => .ok none
end

mutual
/-- The `$internalize` function (src/unnamed/part_001 lines 188-405) on
the modeled fragment. The two identity checks against `$jsObjectPtr` and
`$jsObjectPtr.elem` precede the kind dispatch. A pointer to a non-struct
element falls through to the slice case in the source, which is outside
this fragment. -/
def internalize (v : HV) : Desc → Except RErr CV
  | .jsObjectPtr => .ok (.vjsObj v)
  | .jsObject => .error .jsObjectValue
  | .boolD =>
    .ok (.vbool (match v with
      | .null => false
      | .undef => false
      | .bool b => b
      | .num none => false
      | .num (some q) => decide (q ≠ 0)
      | .obj _ => true))
  | .intD => .ok (.vnum ((jsParseInt v).map (fun k => (k : ℚ))))
  | .int8D => .ok (.vnum (some ((jsSar (some (jsShl (jsParseInt v) 24)) 24 : Int) : ℚ)))
  | .ifaceD methods =>
    if methods ≠ 0 then .error .cannotInternalize
    else
      match v with
      | .null => .ok .vifaceNil
      | .undef => .ok (.vjsObj .undef)
      | _ => .error .unmodeled
  | .ptrD elem =>
    match elem with
    | .structD fs => internalize v (.structD fs)
    | _ => .error .unmodeled
  | .structD fs =>
    match internalizeSearchJsObject v (.structD fs) with
    | .error e => .error e
    | .ok (some o) => .ok o
    | .ok none =>
      match internalizeFields v fs (zeroFlds fs) with
      | .ok n => .ok (.vstruct n)
      | .error e => .error e
/-- The exported-fields loop of the `$kindStruct` case of `$internalize`
(lines 394-401): for each exported field, read the same-named property of
the host object (missing gives `undefined`) and internalize it into the
field; unexported fields are left at their zero value. -/
def internalizeFields (v : HV) : Flds → CFlds → Except RErr CFlds
  | .nil, n => .ok n
  | .cons name prop exported typ rest, n =>
    if exported then
      match v.getProp name with
      | .error e => .error e
      | .ok jsProp =>
        match internalize jsProp typ with
        | .error e => .error e
        | .ok o => internalizeFields v rest (n.set prop o)
    else
      internalizeFields v rest n
end

end GopherJS.Runtime

namespace GopherJS.Runtime

/-! ## Integer internalization (src/unnamed/part_001 lines 213-237)

The parseInt-based integer kinds, on a host value that is an actual
(finite, non-NaN) number, modeled as a rational. This mirrors the
dedicated cases of `$internalize`; the 64-bit kinds use a different
construction (`new t(0, v)`) and are not among these. -/

/-- The parseInt-based integer kinds of the kind dispatch. -/
inductive IntKind where
  | int
  | int8
  | int16
  | int32
  | uint
  | uint8
  | uint16
  | uint32
  | uintptr
  deriving DecidableEq

/-- The result of `parseInt(v)` for a host value that is a finite number. -/
def parsedInt (v : ℚ) : Option Int := some (ratTrunc v)

/-- The integer cases of `$internalize`, one per kind, exactly as the
source computes them with JS shift operators. -/
def internalizeInt : IntKind → ℚ → Int
  | .int, v => ratTrunc v
  | .int8, v => jsSar (some (jsShl (parsedInt v) 24)) 24
  | .int16, v => jsSar (some (jsShl (parsedInt v) 16)) 16
  | .int32, v => jsSar (parsedInt v) 0
  | .uint, v => ratTrunc v
  | .uint8, v => jsShr (some (jsShl (parsedInt v) 24)) 24
  | .uint16, v => jsShr (some (jsShl (parsedInt v) 16)) 16
  | .uint32, v => jsShr (parsedInt v) 0
  | .uintptr, v => jsShr (parsedInt v) 0

/-- The declared width of each parsed integer kind. GopherJS targets a
32-bit architecture: `int`, `uint` and `uintptr` are 32 bits wide
(compiler/utils.go `is64Bit` lists only `Int64`/`Uint64` as 64-bit). -/
def kindWidth : IntKind → Nat
  | .int => 32
  | .int8 => 8
  | .int16 => 16
  | .int32 => 32
  | .uint => 32
  | .uint8 => 8
  | .uint16 => 16
  | .uint32 => 32
  | .uintptr => 32

/-- Whether each parsed integer kind is signed. -/
def kindSigned : IntKind → Bool
  | .int => true
  | .int8 => true
  | .int16 => true
  | .int32 => true
  | _ => false

/-- Restatement of the spec's declared-bit rule in the spec's own words,
for comparison with the code: parse the host numeric value, keep only the
low `width` bits, sign-extend for signed targets and zero-extend for
unsigned targets. -/
def specDeclaredBitRule (width : Nat) (signed : Bool) (v : ℚ) : Int :=
  let low := ratTrunc v % (2 ^ width : Int)
  if signed ∧ 2 ^ (width - 1) ≤ low then low - 2 ^ width else low

end GopherJS.Runtime

namespace GopherJS.Runtime

/-! ## Chain relations for host-handle promotion -/

/-- The first-field chain of a compiled value together with its struct
descriptor reaches an embedded host handle whose underlying host value is
`h`: the chain dereferences non-nil pointers and steps into the first
field of each struct, exactly as the externalize-side `searchJsObject`
walks values. -/
inductive HandleChain : Desc → CV → HV → Prop where
  | handle (h : HV) : HandleChain .jsObjectPtr (.vjsObj h) h
  | ptr {e : Desc} {w : CV} {h : HV} :
      HandleChain e w h → HandleChain (.ptrD e) (.vptr w) h
  | structF {name prop : String} {ex : Bool} {typ : Desc} {rest : Flds}
      {fs : CFlds} {w : CV} {h : HV} :
      CFlds.get fs prop = some w → HandleChain typ w h →
      HandleChain (.structD (.cons name prop ex typ rest)) (.vstruct fs) h

/-- The first-field chain of a descriptor alone reaches the host handle
type `*js.Object`, as the internalize-side `searchJsObject` walks
descriptors. -/
inductive DescChain : Desc → Prop where
  | handle : DescChain .jsObjectPtr
  | ptr {e : Desc} : DescChain e → DescChain (.ptrD e)
  | structF {name prop : String} {ex : Bool} {typ : Desc} {rest : Flds} :
      DescChain typ → DescChain (.structD (.cons name prop ex typ rest))

/-- The first-field chain of a compiled value built by the internalize-side
promotion: struct levels are freshly built structs whose first field
continues the chain, pointer levels are transparent (the source returns
the element result unwrapped for pointer descriptors), and the innermost
handle field holds the adopted host value directly. -/
inductive AdoptChain : Desc → CV → HV → Prop where
  | handle (h : HV) : AdoptChain .jsObjectPtr (.vjsObj h) h
  | ptr {e : Desc} {c : CV} {h : HV} :
      AdoptChain e c h → AdoptChain (.ptrD e) c h
  | structF {name prop : String} {ex : Bool} {typ : Desc} {rest : Flds}
      {fs : CFlds} {c : CV} {h : HV} :
      CFlds.get fs prop = some c → AdoptChain typ c h →
      AdoptChain (.structD (.cons name prop ex typ rest)) (.vstruct fs) h

/-- The first-field chain of a descriptor reaches the bare `js.Object`
element type (rather than the pointer form). -/
inductive ElemChain : Desc → Prop where
  | elem : ElemChain .jsObject
  | ptr {e : Desc} : ElemChain e → ElemChain (.ptrD e)
  | structF {name prop : String} {ex : Bool} {typ : Desc} {rest : Flds} :
      ElemChain typ → ElemChain (.structD (.cons name prop ex typ rest))

lemma CFlds.get_set (fl : CFlds) (prop : String) (c : CV) :
    (fl.set prop c).get prop = some c :=
  match fl with
  | .nil => by simp [CFlds.set, CFlds.get]
  | .cons p v rest => by
    by_cases hp : p = prop
    · subst hp; simp [CFlds.set, CFlds.get]
    · simp [CFlds.set, CFlds.get, hp, CFlds.get_set rest prop c]

lemma externalizeSearch_of_handleChain {t : Desc} {v : CV} {h : HV}
    (hc : HandleChain t v h) : externalizeSearchJsObject v t = some h := by
  induction hc with
  | handle => rfl
  | ptr _ ih => simpa [externalizeSearchJsObject] using ih
  | structF hget _ ih => simp [externalizeSearchJsObject, hget, ih]

lemma internalizeSearch_of_descChain (v : HV) {t : Desc} (hd : DescChain t) :
    ∃ c, internalizeSearchJsObject v t = .ok (some c) ∧ AdoptChain t c v := by
  induction hd with
  | handle => exact ⟨.vjsObj v, rfl, .handle v⟩
  | ptr _ ih =>
    obtain ⟨c, hs, hc⟩ := ih
    exact ⟨c, by simpa [internalizeSearchJsObject] using hs, .ptr hc⟩
  | @structF name prop ex typ rest _ ih =>
    obtain ⟨c, hs, hc⟩ := ih
    refine ⟨.vstruct ((zeroFlds (.cons name prop ex typ rest)).set prop c), ?_, ?_⟩
    · simp [internalizeSearchJsObject, hs]
    · exact .structF (CFlds.get_set _ _ _) hc

lemma internalizeSearch_of_elemChain (v : HV) {t : Desc} (he : ElemChain t) :
    internalizeSearchJsObject v t = .error .jsObjectValue := by
  induction he with
  | elem => rfl
  | ptr _ ih => simpa [internalizeSearchJsObject] using ih
  | structF _ ih => simp [internalizeSearchJsObject, ih]

/-- C5: for every struct value whose first-field chain (through nested
structs and non-nil pointers, at any depth) reaches the opaque host handle
type, externalize returns exactly the embedded handle's underlying host
value; internalizing any host value into a struct descriptor whose
first-field chain reaches the handle type builds a fresh struct chain
adopting the host value directly into the innermost handle field; and an
empty struct gets no host-handle promotion on either side. -/
theorem C5_host_handle_promotion :
    (∀ (fs : Flds) (v : CV) (h : HV), HandleChain (.structD fs) v h →
      externalize v (.structD fs) = .ok h) ∧
    (∀ (fs : Flds) (v : HV), DescChain (.structD fs) →
      ∃ c, internalize v (.structD fs) = .ok c ∧ AdoptChain (.structD fs) c v) ∧
    (∀ v : CV, externalizeSearchJsObject v (.structD .nil) = none) ∧
    (∀ v : HV, internalizeSearchJsObject v (.structD .nil) = .ok none) := by
  refine ⟨?_, ?_, fun v => rfl, fun v => rfl⟩
  · intro fs v h hc
    have hs := externalizeSearch_of_handleChain hc
    simp [externalize, hs]
  · intro fs v hd
    obtain ⟨c, hs, hc⟩ := internalizeSearch_of_descChain v hd
    exact ⟨c, by simp [internalize, hs], hc⟩

/-- A two-level test descriptor: a struct whose first field is a pointer
to a single-field struct embedding the host handle. -/
def handleDesc : Desc :=
  .structD (.cons "S" "S" true
    (.ptrD (.structD (.cons "O" "O" true .jsObjectPtr .nil))) .nil)

/-- A compiled value of `handleDesc` whose embedded handle wraps the host
number 5. -/
def handleVal : CV :=
  .vstruct (.cons "S"
    (.vptr (.vstruct (.cons "O" (.vjsObj (.num (some 5))) .nil))) .nil)

/-- Witness for C5 at a depth-two chain with a host number as the handle
payload. -/
theorem C5_host_handle_promotion_witness :
    externalize handleVal handleDesc = .ok (.num (some 5)) ∧
    (∃ c, internalize (.num (some 5)) handleDesc = .ok c ∧
      AdoptChain handleDesc c (.num (some 5))) :=
  ⟨C5_host_handle_promotion.1 _ handleVal _
      (.structF rfl (.ptr (.structF rfl (.handle _)))),
   C5_host_handle_promotion.2.1 _ _ (.structF (.ptr (.structF .handle)))⟩

end GopherJS.Runtime

namespace GopherJS.Runtime

/-! ## Struct field visibility (C6) and fatal internalizations (C8, C10) -/

/-- The struct descriptor of the spec example: an exported field `A` of
kind int and an unexported field `b` of kind int. -/
def structAb : Desc :=
  .structD (.cons "A" "A" true .intD (.cons "b" "b" false .intD .nil))

/-- The same struct with the exported field declared as an 8-bit integer
instead of the word-size kind. -/
def structAb8 : Desc :=
  .structD (.cons "A" "A" true .int8D (.cons "b" "b" false .intD .nil))

/-- C6 counterexample: internalizing a host object that lacks the property
`A` into the `A int / b int` struct does not leave `A` at its zero value:
the source reads the missing property as `undefined` and `parseInt`
(the `$kindInt` case) turns it into NaN, not 0. -/
theorem C6_counterexample :
    internalize (.obj .nil) structAb
      = .ok (.vstruct (.cons "A" (.vnum none) (.cons "b" (.vnum (some 0)) .nil))) ∧
    CV.vnum none ≠ Desc.zero .intD :=
  ⟨rfl, by decide⟩

/-- C6 (amended): externalizing the `A int (exported) / b int (unexported)`
struct yields a host object whose only property is `A`; internalizing a
host object that lacks property `A` internalizes the missing property
(`undefined`) into the field, which for the word-size int kind is NaN
rather than the zero value — for an explicitly sized integer kind such as
int8 it is the zero value 0 — and unexported fields are left at their zero
values. -/
theorem C6_struct_field_visibility :
    (∀ a b : Option ℚ,
      externalize (.vstruct (.cons "A" (.vnum a) (.cons "b" (.vnum b) .nil))) structAb
        = .ok (.obj (.cons "A" (.num a) .nil))) ∧
    internalize (.obj .nil) structAb
      = .ok (.vstruct (.cons "A" (.vnum none) (.cons "b" (.vnum (some 0)) .nil))) ∧
    internalize (.obj .nil) structAb8
      = .ok (.vstruct (.cons "A" (.vnum (some 0)) (.cons "b" (.vnum (some 0)) .nil))) :=
  ⟨fun _ _ => rfl, rfl, rfl⟩

/-- C8: internalizing any host value into an interface descriptor with a
non-empty method set is the fatal "cannot internalize" runtime error;
under the empty interface, host null internalizes to the nil interface
value and host undefined internalizes to an opaque host handle wrapping
undefined. -/
theorem C8_interface_internalization :
    (∀ (v : HV) (m : Nat),
      internalize v (.ifaceD (m + 1)) = .error .cannotInternalize) ∧
    internalize .null (.ifaceD 0) = .ok .vifaceNil ∧
    internalize .undef (.ifaceD 0) = .ok (.vjsObj .undef) := by
  refine ⟨fun v m => ?_, rfl, rfl⟩
  simp [internalize]

/-- C10: internalizing any host value into the bare `js.Object` element
descriptor is the fatal "cannot internalize js.Object, use *js.Object
instead" error, both at the top-level dispatch of internalize and when the
first-field chain search inside a struct descriptor reaches the element
type. -/
theorem C10_internalize_js_object_elem :
    (∀ v : HV, internalize v .jsObject = .error .jsObjectValue) ∧
    (∀ (v : HV) (fs : Flds), ElemChain (.structD fs) →
      internalize v (.structD fs) = .error .jsObjectValue) := by
  refine ⟨fun v => rfl, fun v fs h => ?_⟩
  have hs := internalizeSearch_of_elemChain v h
  simp [internalize, hs]

/-- Witness for C10 at a struct whose first field has the bare `js.Object`
type. -/
theorem C10_internalize_js_object_elem_witness :
    internalize .null (.structD (.cons "O" "O" true .jsObject .nil))
      = .error .jsObjectValue :=
  C10_internalize_js_object_elem.2 .null _ (.structF .elem)

end GopherJS.Runtime

namespace GopherJS.Runtime

lemma ratTrunc_three_point_nine : ratTrunc 3.9 = 3 := by
  norm_num [ratTrunc]
  decide

/-- C2 counterexample: the word-size kind `int` (32 bits wide on the
GopherJS target) is parsed but not truncated to its declared width: the
`$kindInt` case is a bare `parseInt(v)`, so internalizing -1 into `uint`
(or any value outside 32 bits into `int`) does not match the declared-bit
rule the claim states for every integer kind. -/
theorem C2_counterexample :
    internalizeInt .uint (-1)
      ≠ specDeclaredBitRule (kindWidth .uint) (kindSigned .uint) (-1) := by
  decide

/-- C2 (amended): internalizing 300 into the signed 8-bit kind yields 44,
into the unsigned 8-bit kind 44 as well; internalizing 3.9 into every
parsed integer kind yields 3; and the declared-bit rule — keep the low
bits of the declared width, sign-extending for signed targets and
zero-extending for unsigned — holds for every explicitly sized kind
(int8, int16, int32, uint8, uint16, uint32, uintptr), while the word-size
kinds int and uint are parsed with no width truncation. -/
theorem C2_integer_internalization :
    internalizeInt .int8 300 = 44 ∧
    internalizeInt .uint8 300 = 44 ∧
    (∀ k : IntKind, internalizeInt k 3.9 = 3) ∧
    (∀ k : IntKind, k ≠ .int → k ≠ .uint → ∀ v : ℚ,
      internalizeInt k v = specDeclaredBitRule (kindWidth k) (kindSigned k) v) ∧
    (∀ v : ℚ, internalizeInt .int v = ratTrunc v ∧
      internalizeInt .uint v = ratTrunc v) := by
  refine ⟨by decide, by decide, ?_, ?_, fun v => ⟨rfl, rfl⟩⟩
  · intro k
    cases k <;>
      simp only [internalizeInt, parsedInt, ratTrunc_three_point_nine] <;>
      decide
  · intro k hk1 hk2 v
    cases k
    · exact absurd rfl hk1
    case uint => exact absurd rfl hk2
    all_goals
      simp only [internalizeInt, specDeclaredBitRule, kindWidth, kindSigned,
        parsedInt, jsShl, jsSar, jsShr, jsToInt32N, jsToUint32N, jsToInt32,
        jsToUint32]
    all_goals generalize ratTrunc v = n
    all_goals norm_num
    all_goals omega

/-- Witness for C2 at the unsigned 16-bit kind on host value -1: the
declared-bit rule applies (and evaluates to 65535). -/
theorem C2_integer_internalization_witness :
    internalizeInt .uint16 (-1)
      = specDeclaredBitRule (kindWidth .uint16) (kindSigned .uint16) (-1) ∧
    IntKind.uint16 ≠ .int :=
  ⟨C2_integer_internalization.2.2.2.1 .uint16 (by decide) (by decide) (-1),
   by decide⟩

end GopherJS.Runtime
namespace GopherJS.StringBridge

/-! ## The string marshaling cases

The `$kindString` cases of `$externalize` (src/unnamed/part_001 lines
83-99) and `$internalize` (lines 341-360). Modelled from the spec: the
rune codec helpers `$decodeRune` and `$encodeRune` are repository code
outside the source excerpt; following the spec, which says externalize
"decode[s] scalar-by-scalar" and internalize "decodes UTF-16 (recognizing
surrogate pairs) into the compiled internal scalar encoding", a compiled
string is modeled as its sequence of scalar values, `decodeRune` reads one
scalar (width 1) and `encodeRune` appends one scalar. A host string is its
sequence of UTF-16 code units. -/

/-- The `$isASCII` helper (src lines 422-429): every code unit is below
128. -/
def isASCII (s : List Nat) : Bool := s.all (fun c => c < 128)

/-- The non-ASCII loop of the `$kindString` case of `$externalize`: each
scalar above 0xFFFF becomes the surrogate pair
(floor((c - 0x10000) / 0x400) + 0xD800, (c - 0x10000) % 0x400 + 0xDC00);
every other scalar becomes one code unit. -/
def utf16Encode : List Nat → List Nat
  | [] => []
  | c :: rest =>
    if c > 0xFFFF then
      ((c - 0x10000) / 0x400 + 0xD800) :: ((c - 0x10000) % 0x400 + 0xDC00)
        :: utf16Encode rest
    else
      c :: utf16Encode rest

/-- The non-ASCII while loop of the `$kindString` case of `$internalize`:
a code unit in the high-surrogate range combines with the following unit
into the scalar (h - 0xD800) * 0x400 + l - 0xDC00 + 0x10000 and the loop
advances by two; any other unit becomes one scalar. A high surrogate in
final position reads the out-of-range unit as 0 here (the source computes
with NaN; this position is unreachable from externalized output). -/
def utf16Decode : List Nat → List Nat
  | [] => []
  | h :: rest =>
    if 0xD800 ≤ h ∧ h ≤ 0xDBFF then
      ((h - 0xD800) * 0x400 + rest.headD 0 - 0xDC00 + 0x10000)
        :: utf16Decode (rest.drop 1)
    else
      h :: utf16Decode rest
termination_by s => s.length
decreasing_by
  all_goals simp
  omega

/-- The `$kindString` case of `$externalize`. -/
def externalizeString (s : List Nat) : List Nat :=
  if isASCII s then s else utf16Encode s

/-- The `$kindString` case of `$internalize` (after the `String(v)`
coercion, the identity on a host string). -/
def internalizeString (v : List Nat) : List Nat :=
  if isASCII v then v else utf16Decode v

/-- A Unicode scalar value: in range and not a surrogate. Every scalar of
a well-formed compiled string satisfies this. -/
def ValidScalar (c : Nat) : Prop := c < 1114112 ∧ ¬(55296 ≤ c ∧ c ≤ 57343)

instance (c : Nat) : Decidable (ValidScalar c) :=
  inferInstanceAs (Decidable (_ ∧ _))

lemma utf16Decode_encode (s : List Nat) (hv : ∀ c ∈ s, ValidScalar c) :
    utf16Decode (utf16Encode s) = s := by
  induction s with
  | nil => rw [utf16Encode, utf16Decode]
  | cons c rest ih =>
    obtain ⟨hc1, hc2⟩ := hv c (by simp)
    have hrest := ih fun x hx => hv x (by simp [hx])
    by_cases h : c > 0xFFFF
    · rw [utf16Encode, if_pos h, utf16Decode, if_pos (by omega)]
      simp only [List.headD, List.drop, hrest]
      refine congrArg₂ _ (by omega) rfl
    · rw [utf16Encode, if_neg h, utf16Decode, if_neg (by omega)]
      exact congrArg _ hrest

lemma isASCII_of_encode (s : List Nat) (h : isASCII (utf16Encode s) = true) :
    isASCII s = true := by
  induction s with
  | nil => rfl
  | cons c rest ih =>
    by_cases hbig : c > 0xFFFF
    · exfalso
      simp [utf16Encode, hbig, isASCII] at h
      omega
    · simp only [utf16Encode, if_neg hbig, isASCII, List.all_cons,
        Bool.and_eq_true] at h ⊢
      exact ⟨h.1, ih h.2⟩

/-- C3: internalize after externalize is the identity on every well-formed
compiled string, including strings with scalars above U+FFFF; in
particular the emoji scalar U+1F600 externalizes to the surrogate pair
(0xD83D, 0xDE00). -/
theorem C3_string_round_trip :
    (∀ s : List Nat, (∀ c ∈ s, ValidScalar c) →
      internalizeString (externalizeString s) = s) ∧
    externalizeString [128512] = [55357, 56832] := by
  refine ⟨fun s hv => ?_, by decide⟩
  by_cases ha : isASCII s
  · simp [externalizeString, internalizeString, ha]
  · have ha' : isASCII s = false := by simpa using ha
    have hna : isASCII (utf16Encode s) = false := by
      rcases hb : isASCII (utf16Encode s) with _ | _
      · rfl
      · exact absurd (isASCII_of_encode s hb) (by simp [ha'])
    simp [externalizeString, internalizeString, ha', hna,
      utf16Decode_encode s hv]

/-- Witness for C3 on a mixed string containing an ASCII letter, a scalar
above U+FFFF and a Latin-1 letter. -/
theorem C3_string_round_trip_witness :
    (∀ c ∈ [104, 128512, 233], ValidScalar c) ∧
    internalizeString (externalizeString [104, 128512, 233])
      = [104, 128512, 233] :=
  ⟨by decide, C3_string_round_trip.1 _ (by decide)⟩

end GopherJS.StringBridge

namespace GopherJS.SeenSet

/-! ## The seen-set and cyclic host objects

The cycle-relevant fragment of `$internalize` (src/unnamed/part_001 lines
206-210 and 316-331): the per-call cache `seen`, the empty-interface
default branch that dispatches a plain host object to the string-keyed
map type, and the `$kindMap` case, which registers its freshly created
`Map` in `seen` keyed by (descriptor, host value) before internalizing
the entries.

Host objects live in an explicit host heap (`Nat` addresses), so a
directly self-referential host object is representable; compiled `Map`s
live in a compiled heap and a compiled value in this fragment is the heap
address of its backing `Map`, which carries its identity (the
`new mapType(...)` wrapper the default branch adds around the shared
backing Map is value-transparent and not modeled). The map key kind is
the string kind, whose internalization is the identity on the host key
and seen-independent, so keys are adopted directly. The memoized
`$mapType($String, $emptyInterface)` descriptor is the same object on
every call, so descriptor identity is constructor equality here.
Recursion is bounded by explicit fuel; `none` means out of fuel or a
dangling host address, never a converted value. -/

/-- The two descriptors of this fragment: the empty interface and the
memoized string-keyed empty-interface map type. -/
inductive MDesc where
  | emptyInterface
  | mapStrEmpty
  deriving DecidableEq

/-- The host heap: each address holds the property list of a host object;
property values are themselves host object addresses (the self-reference
shape of the claim). -/
abbrev HostHeap := List (Nat × List (String × Nat))

/-- The compiled heap: each address holds the entries of a backing `Map`
(string key to compiled map address). -/
abbrev CompHeap := List (Nat × List (String × Nat))

/-- The seen-set: (descriptor, host address) to already-materialized
compiled map address. -/
abbrev Seen := List ((MDesc × Nat) × Nat)

/-- Lookup in the seen-set (`seen.get(t).has(v)` / `seen.get(t).get(v)`). -/
def lookupSeen (seen : Seen) (t : MDesc) (v : Nat) : Option Nat :=
  match seen with
  | [] => none
  | (tv, c) :: rest => if tv = (t, v) then some c else lookupSeen rest t v

/-- Lookup of a host object address in the host heap. -/
def lookupHeap (hh : HostHeap) (a : Nat) : Option (List (String × Nat)) :=
  match hh with
  | [] => none
  | (b, props) :: rest => if b = a then some props else lookupHeap rest a

/-- Replacing the entries stored at a compiled map address. -/
def setHeap (ch : CompHeap) (m : Nat) (entries : List (String × Nat)) :
    CompHeap :=
  match ch with
  | [] => []
  | (b, es) :: rest =>
    if b = m then (b, entries) :: rest else (b, es) :: setHeap rest m entries

/-- The cycle-relevant fragment of `$internalize`. The seen-set is
consulted before any recursion; the empty-interface case dispatches a host
object to the memoized map type; the map case allocates a fresh backing
`Map`, registers it in the seen-set keyed by (descriptor, host value)
before internalizing the entries, internalizes every entry value at the
empty interface with the shared seen-set, then commits the entries. -/
def internalizeCyc (H : HostHeap) :
    Nat → MDesc → Nat → Seen → CompHeap → Option (Nat × Seen × CompHeap)
  | 0, _, _, _, _ => none
  | fuel + 1, t, v, seen, ch =>
    match lookupSeen seen t v with
    | some c => some (c, seen, ch)
    | none =>
      match t with
      | .emptyInterface => internalizeCyc H fuel .mapStrEmpty v seen ch
      | .mapStrEmpty =>
        match lookupHeap H v with
        | none => none
        | some props =>
          let m := ch.length
          let seen1 := ((t, v), m) :: seen
          let ch1 := ch ++ [(m, [])]
          match props.foldl
              (fun st kv =>
                match st with
                | none => none
                | some (seen2, ch2, acc) =>
                  match internalizeCyc H fuel .emptyInterface kv.2 seen2 ch2 with
                  | none => none
                  | some (c, seen3, ch3) =>
                    some (seen3, ch3, acc ++ [(kv.1, c)]))
              (some (seen1, ch1, ([] : List (String × Nat)))) with
          | none => none
          | some (seenF, chF, entries) => some (m, seenF, setHeap chF m entries)

/-- C4: the seen-set makes a directly self-referential host object
internalize into a self-referential compiled value without unbounded
recursion. First conjunct: whenever the seen-set already maps (descriptor,
host value), internalize returns the cached result immediately, with no
recursion and no state change. Second conjunct: internalizing the host
object at address `a` whose property `k` refers back to `a` itself, into
the empty interface, terminates within fuel 4 and produces the compiled
map at address 0 whose entry `k` holds address 0 — the self-referential
field has the same identity as the outer result. -/
theorem C4_seen_set_cycle_safety :
    (∀ (H : HostHeap) (fuel : Nat) (t : MDesc) (v c : Nat) (rest : Seen)
        (ch : CompHeap),
      internalizeCyc H (fuel + 1) t v (((t, v), c) :: rest) ch
        = some (c, ((t, v), c) :: rest, ch)) ∧
    (∀ (k : String) (a : Nat),
      internalizeCyc [(a, [(k, a)])] 4 .emptyInterface a [] []
        = some (0, [((MDesc.mapStrEmpty, a), 0)], [(0, [(k, 0)])])) := by
  constructor
  · intro H fuel t v c rest ch
    simp [internalizeCyc, lookupSeen]
  · intro k a
    simp [internalizeCyc, lookupSeen, lookupHeap, setHeap]

end GopherJS.SeenSet

namespace GopherJS.Compiler

/-! ## Identifiers and the name allocator (compiler/utils.go)

Go strings are byte strings; identifiers are modeled as lists of byte
values. `encodeIdent` (utils.go lines 933-943) runs `url.QueryEscape`,
un-escapes the mid-dot separator and replaces `%` with `$` (byte 36);
`fmt.Sprintf("%s$%d", name, n)` appends byte 36 and the decimal digits of
`n`. -/

/-- One decimal digit byte. -/
def digitByte (n : Nat) : Nat := 48 + n

/-- Decimal digit bytes of a natural number (the `%d` verb), most
significant first, computed with explicit fuel so that the definition is
structurally recursive. -/
def decDigitsAux : Nat → Nat → List Nat
  | 0, _ => []
  | fuel + 1, n =>
    if n < 10 then [digitByte n]
    else decDigitsAux fuel (n / 10) ++ [digitByte (n % 10)]

/-- Decimal digit bytes of a natural number; `n + 1` fuel always
suffices. -/
def decDigits (n : Nat) : List Nat := decDigitsAux (n + 1) n

/-- Reading decimal digit bytes back; inverse of `decDigits`. -/
def dec10 (l : List Nat) : Nat := l.foldl (fun a b => a * 10 + (b - 48)) 0

lemma dec10_append_single (l : List Nat) (b : Nat) :
    dec10 (l ++ [b]) = dec10 l * 10 + (b - 48) := by
  simp [dec10, List.foldl_append]

lemma dec10_decDigitsAux (fuel n : Nat) (h : n < fuel) :
    dec10 (decDigitsAux fuel n) = n := by
  induction fuel generalizing n with
  | zero => omega
  | succ fuel ih =>
    rw [decDigitsAux]
    by_cases hn : n < 10
    · simp [dec10, digitByte, hn]
    · rw [if_neg hn, dec10_append_single, ih (n / 10) (by omega)]
      simp [digitByte]
      omega

lemma dec10_decDigits (n : Nat) : dec10 (decDigits n) = n :=
  dec10_decDigitsAux (n + 1) n (Nat.lt_succ_self n)

lemma decDigits_injective : Function.Injective decDigits := by
  intro m n h
  have := dec10_decDigits m
  rw [h, dec10_decDigits] at this
  omega

lemma decDigitsAux_digits (fuel n : Nat) :
    ∀ b ∈ decDigitsAux fuel n, 48 ≤ b ∧ b ≤ 57 := by
  induction fuel generalizing n with
  | zero => simp [decDigitsAux]
  | succ fuel ih =>
    intro b hb
    rw [decDigitsAux] at hb
    by_cases hn : n < 10
    · simp [hn, digitByte] at hb
      omega
    · simp [hn] at hb
      rcases hb with hb | hb
      · exact ih (n / 10) b hb
      · simp [digitByte] at hb
        omega

end GopherJS.Compiler

namespace GopherJS.Compiler

/-! ## The minified base-26 name sequence

The inner loop of `newVariable` under minification (utils.go lines
285-304): starting from candidate index `i`, the candidate name is built
by repeatedly prepending the byte `offset + j % 26` and stepping
`j := j / 26 - 1` until that would reach -1; the offset is `'A'` (65) for
package-level allocations and `'a'` (97) otherwise. -/

/-- Bijective base-26 digits of a candidate index, most significant
first, with explicit fuel (the source loop prepends, so the last digit
computed is the first byte). -/
def minDigitsAux : Nat → Nat → List Nat
  | 0, _ => []
  | fuel + 1, j =>
    if j < 26 then [j]
    else minDigitsAux fuel (j / 26 - 1) ++ [j % 26]

/-- Bijective base-26 digits of a candidate index; `j + 1` fuel always
suffices. -/
def minDigits (j : Nat) : List Nat := minDigitsAux (j + 1) j

/-- The candidate name for index `j` at the given alphabet offset. -/
def minName (offset j : Nat) : List Nat := (minDigits j).map (fun d => offset + d)

/-- Reading bijective base-26 digits back; inverse of `minDigits`. -/
def dec26 : List Nat → Nat
  | [] => 0
  | d :: ds => ds.foldl (fun a x => (a + 1) * 26 + x) d

lemma dec26_append_single (l : List Nat) (d : Nat) (h : l ≠ []) :
    dec26 (l ++ [d]) = (dec26 l + 1) * 26 + d := by
  match l with
  | x :: xs => simp [dec26, List.foldl_append]

lemma minDigitsAux_ne_nil (fuel j : Nat) (h : 0 < fuel) :
    minDigitsAux fuel j ≠ [] := by
  match fuel with
  | fuel + 1 =>
    rw [minDigitsAux]
    by_cases hj : j < 26 <;> simp [hj]

lemma dec26_minDigitsAux (fuel j : Nat) (h : j < fuel) :
    dec26 (minDigitsAux fuel j) = j := by
  induction fuel generalizing j with
  | zero => omega
  | succ fuel ih =>
    rw [minDigitsAux]
    by_cases hj : j < 26
    · simp [dec26, hj]
    · rw [if_neg hj,
        dec26_append_single _ _ (minDigitsAux_ne_nil fuel _ (by omega)),
        ih (j / 26 - 1) (by omega)]
      omega

lemma dec26_minDigits (j : Nat) : dec26 (minDigits j) = j :=
  dec26_minDigitsAux (j + 1) j (Nat.lt_succ_self j)

lemma minDigits_injective : Function.Injective minDigits := by
  intro m n h
  have := dec26_minDigits m
  rw [h, dec26_minDigits] at this
  omega

lemma minName_injective (offset : Nat) : Function.Injective (minName offset) := by
  intro m n h
  refine minDigits_injective (List.map_injective_iff.mpr ?_ h)
  intro a b hab
  exact Nat.add_left_cancel hab

end GopherJS.Compiler

namespace GopherJS.Compiler

/-! ## encodeIdent (utils.go lines 933-943) -/

/-- Uppercase hexadecimal digit byte, as `url.QueryEscape` prints
escapes. -/
def upperHexDigit (n : Nat) : Nat := if n < 10 then 48 + n else 55 + n

/-- Whether `url.QueryEscape` leaves a byte unescaped: ASCII alphanumerics
and `-`, `_`, `.`, `~`. -/
def isUnreservedByte (b : Nat) : Bool :=
  (48 ≤ b && b ≤ 57) || (65 ≤ b && b ≤ 90) || (97 ≤ b && b ≤ 122) ||
    b == 45 || b == 95 || b == 46 || b == 126

/-- Function `url.QueryEscape` on the bytes of a string: unreserved bytes pass,
space becomes `+`, every other byte becomes `%XX` with uppercase hex. -/
def queryEscape : List Nat → List Nat
  | [] => []
  | b :: rest =>
    (if isUnreservedByte b then [b]
     else if b = 32 then [43]
     else [37, upperHexDigit (b / 16), upperHexDigit (b % 16)]) ++ queryEscape rest

/-- The `strings.ReplaceAll(name, "%C2%B7", midDot)` step: the escape of
the UTF-8 mid-dot separator (bytes 0xC2 0xB7) is restored, scanning left
to right. -/
def replaceMidDot : List Nat → List Nat
  | 37 :: 67 :: 50 :: 37 :: 66 :: 55 :: rest => 194 :: 183 :: replaceMidDot rest
  | b :: rest => b :: replaceMidDot rest
  | [] => []

/-- Function `encodeIdent` (utils.go lines 933-943): QueryEscape, restore the
mid-dot, then replace `%` (byte 37) with `$` (byte 36). -/
def encodeIdent (name : List Nat) : List Nat :=
  (replaceMidDot (queryEscape name)).map (fun b => if b = 37 then 36 else b)

/-! ## The funcContext and newVariable (utils.go lines 279-322) -/

/-- The per-instance registry and package-level compilation state shared
through `fc.pkgCtx`. `dceDeps` is the list of `DeclareDCEDep` calls
(object identity, nest type arguments, type arguments), modelled from the
spec: `declareDependency(from, to)` inserts an edge, the referencing side
being the current context. `instanceIDs` is the instance registry,
modelled from the spec: registration is lazy and first-use-wins, the ID
stable for the rest of the compilation (the position in the list).
Type identities and package identities are numbers; object identities are
numbers. -/
structure PkgContext where
  minify : Bool
  pkg : Nat
  dceDeps : List (Nat × List Nat × List Nat)
  instanceIDs : List (Nat × List Nat × List Nat)
  pkgVars : List (Nat × List Nat)
  escapingVars : List Nat
  deriving DecidableEq

/-- One funcContext's own naming state: the `allVars` proposed-name count
table, the `localVars` allocation list and the `objectNames`
memoization table (object identity to assigned name). -/
structure Scope where
  allVars : List (List Nat × Nat)
  localVars : List (List Nat)
  objectNames : List (Nat × List Nat)
  deriving DecidableEq

/-- A funcContext: its own scope, the chain of enclosing scopes (innermost
first, the package-level root last), the instance being generated
(`fc.instance.Object` identity and `fc.instance.TArgs`) and the shared
package context. -/
structure FuncContext where
  scope : Scope
  parents : List Scope
  instanceObject : Option Nat
  instanceTArgs : List Nat
  pkgCtx : PkgContext
  deriving DecidableEq

/-- Count lookup in an `allVars` table; a missing key reads as 0, as for a
Go map. -/
def countOf (l : List (List Nat × Nat)) (name : List Nat) : Nat :=
  match l with
  | [] => 0
  | (k, n) :: rest => if k = name then n else countOf rest name

/-- Count store into an `allVars` table: replace the first entry with the
key, or append. -/
def setCount (l : List (List Nat × Nat)) (name : List Nat) (n : Nat) :
    List (List Nat × Nat) :=
  match l with
  | [] => [(name, n)]
  | (k, m) :: rest =>
    if k = name then (k, n) :: rest else (k, m) :: setCount rest name n

/-- The minified candidate loop of `newVariable`: try candidate indices
`i`, `i+1`, ... and return the first whose count in `allVars` is zero.
Bounded by fuel; `allVars.length + 1` candidates always contain a fresh
one since candidates are pairwise distinct. -/
def minifySearch (allVars : List (List Nat × Nat)) (offset : Nat) :
    Nat → Nat → Option (List Nat)
  | 0, _ => none
  | fuel + 1, i =>
    let name := minName offset i
    if countOf allVars name = 0 then some name
    else minifySearch allVars offset fuel (i + 1)

/-- The name `fmt.Sprintf("%s$%d", name, n)` when `n > 0`, else `name`
itself (utils.go lines 308-311). -/
def suffixedName (name : List Nat) (n : Nat) : List Nat :=
  if n > 0 then name ++ 36 :: decDigits n else name

/-- Method `funcContext.newVariable` (utils.go lines 279-322). The proposed name
is sanitized with `encodeIdent`; under minification it is replaced by the
first free candidate of the base-26 sequence (uppercase for package
level); the scope's count for the chosen name uniquifies with a `$N`
suffix and is incremented. A package-level allocation propagates the new
count to every enclosing scope and is not added to `localVars`; a local
allocation is appended to `localVars`. `none` models the
`panic("newVariable: empty name")` and exhaustion of the bounded candidate
search (which sufficient fuel rules out). -/
def newVariable (fc : FuncContext) (name : List Nat) (pkgLevel : Bool) :
    Option (List Nat × FuncContext) :=
  if name = [] then none
  else
    match (if fc.pkgCtx.minify then
             minifySearch fc.scope.allVars (if pkgLevel then 65 else 97)
               (fc.scope.allVars.length + 1) 0
           else some (encodeIdent name)) with
    | none => none
    | some name2 =>
      if pkgLevel then
        some (suffixedName name2 (countOf fc.scope.allVars name2),
          FuncContext.mk
            (Scope.mk (setCount fc.scope.allVars name2 (countOf fc.scope.allVars name2 + 1))
              fc.scope.localVars fc.scope.objectNames)
            (fc.parents.map (fun s =>
              Scope.mk (setCount s.allVars name2 (countOf fc.scope.allVars name2 + 1))
                s.localVars s.objectNames))
            fc.instanceObject fc.instanceTArgs fc.pkgCtx)
      else
        some (suffixedName name2 (countOf fc.scope.allVars name2),
          FuncContext.mk
            (Scope.mk (setCount fc.scope.allVars name2 (countOf fc.scope.allVars name2 + 1))
              (fc.scope.localVars ++ [suffixedName name2 (countOf fc.scope.allVars name2)])
              fc.scope.objectNames)
            fc.parents fc.instanceObject fc.instanceTArgs fc.pkgCtx)

end GopherJS.Compiler

namespace GopherJS.Compiler

/-! ## Natural-mode name uniqueness (C1) -/

/-- A funcContext with empty naming state and natural (non-minified)
naming. -/
def naturalEmptyCtx : FuncContext :=
  FuncContext.mk (Scope.mk [] [] []) [] none []
    (PkgContext.mk false 0 [] [] [] [])

/-- A sequence of local allocations: `newVariable` with `pkgLevel = false`
on each proposed name in turn, returning the allocated names in order and
the final context. -/
def allocLocals (fc : FuncContext) :
    List (List Nat) → Option (List (List Nat) × FuncContext)
  | [] => some ([], fc)
  | p :: ps =>
    match newVariable fc p false with
    | none => none
    | some (n, fc2) =>
      match allocLocals fc2 ps with
      | none => none
      | some (ns, fc3) => some (n :: ns, fc3)

lemma countOf_setCount (l : List (List Nat × Nat)) (k k2 : List Nat) (v : Nat) :
    countOf (setCount l k v) k2 = if k = k2 then v else countOf l k2 := by
  induction l with
  | nil =>
    by_cases h : k = k2 <;> simp [setCount, countOf, h]
  | cons e rest ih =>
    obtain ⟨ek, ev⟩ := e
    by_cases h1 : ek = k
    · subst h1
      by_cases h2 : ek = k2 <;> simp [setCount, countOf, h2, ih]
    · by_cases h2 : ek = k2
      · subst h2
        have hk : k ≠ ek := fun h => h1 h.symm
        simp [setCount, countOf, h1, hk]
      · simp [setCount, countOf, h1, h2, ih]

lemma mem_decDigits_ge (n b : Nat) (hb : b ∈ decDigits n) : 48 ≤ b :=
  (decDigitsAux_digits (n + 1) n b hb).1

lemma sep_not_mem_decDigits (n : Nat) : 36 ∉ decDigits n := by
  intro h
  have := mem_decDigits_ge n 36 h
  omega

lemma splitAtSep {b1 b2 d1 d2 : List Nat} (h1 : 36 ∉ b1) (h2 : 36 ∉ b2)
    (heq : b1 ++ 36 :: d1 = b2 ++ 36 :: d2) : b1 = b2 ∧ d1 = d2 := by
  induction b1 generalizing b2 with
  | nil =>
    match b2 with
    | [] => simpa using heq
    | y :: ys =>
      exfalso
      simp at heq
      exact h2 (heq.1 ▸ List.mem_cons_self y ys)
  | cons x xs ih =>
    match b2 with
    | [] =>
      exfalso
      simp at heq
      exact h1 (heq.1 ▸ List.mem_cons_self x xs)
    | y :: ys =>
      simp at heq h1 h2
      obtain ⟨hxy, htail⟩ := heq
      obtain ⟨hb, hd⟩ := ih h1.2 h2.2 htail
      exact ⟨by simp [hxy, hb], hd⟩

lemma suffixedName_injective {b1 b2 : List Nat} {m n : Nat}
    (h1 : 36 ∉ b1) (h2 : 36 ∉ b2)
    (heq : suffixedName b1 m = suffixedName b2 n) : b1 = b2 ∧ m = n := by
  unfold suffixedName at heq
  by_cases hm : m > 0 <;> by_cases hn : n > 0
  · rw [if_pos hm, if_pos hn] at heq
    obtain ⟨hb, hd⟩ := splitAtSep h1 h2 heq
    exact ⟨hb, decDigits_injective hd⟩
  · rw [if_pos hm, if_neg hn] at heq
    exact absurd (heq ▸ (List.mem_append_right b1 (List.mem_cons_self 36 _))) h2
  · rw [if_neg hm, if_pos hn] at heq
    exact absurd (heq.symm ▸ (List.mem_append_right b2 (List.mem_cons_self 36 _)) : 36 ∈ b1) h1
  · rw [if_neg hm, if_neg hn] at heq
    exact ⟨heq, by omega⟩

end GopherJS.Compiler

namespace GopherJS.Compiler

/-- The allocator invariant: every live local name was produced as
`suffixedName b n` for some separator-free sanitized base `b` whose
current count exceeds `n`. -/
def AllocInv (cnt : List (List Nat × Nat)) (names : List (List Nat)) : Prop :=
  ∀ m ∈ names, ∃ b n, 36 ∉ b ∧ m = suffixedName b n ∧ n < countOf cnt b

lemma newVariable_natural (fc : FuncContext) (hmin : fc.pkgCtx.minify = false)
    (p : List Nat) (hp : p ≠ []) :
    newVariable fc p false
      = some (suffixedName (encodeIdent p) (countOf fc.scope.allVars (encodeIdent p)),
          FuncContext.mk
            (Scope.mk
              (setCount fc.scope.allVars (encodeIdent p)
                (countOf fc.scope.allVars (encodeIdent p) + 1))
              (fc.scope.localVars
                ++ [suffixedName (encodeIdent p)
                     (countOf fc.scope.allVars (encodeIdent p))])
              fc.scope.objectNames)
            fc.parents fc.instanceObject fc.instanceTArgs fc.pkgCtx) := by
  simp [newVariable, hp, hmin, suffixedName]
lemma allocLocals_cons_some (fc : FuncContext) (p : List Nat)
    (ps : List (List Nat)) (n : List Nat) (fc2 : FuncContext)
    (h : newVariable fc p false = some (n, fc2)) :
    allocLocals fc (p :: ps)
      = match allocLocals fc2 ps with
        | none => none
        | some (ns, fc3) => some (n :: ns, fc3) := by
  rw [allocLocals, h]

lemma allocLocals_spec (ps : List (List Nat)) :
    ∀ fc : FuncContext, fc.pkgCtx.minify = false →
      (∀ p ∈ ps, 36 ∉ encodeIdent p) →
      AllocInv fc.scope.allVars fc.scope.localVars →
      ∀ res : List (List Nat) × FuncContext, allocLocals fc ps = some res →
        res.2.scope.localVars = fc.scope.localVars ++ res.1 ∧
          (∀ m ∈ fc.scope.localVars, m ∉ res.1) ∧ res.1.Nodup := by
  induction ps with
  | nil =>
    intro fc hmin hfree hinv res hrun
    obtain ⟨rfl⟩ : res = ([], fc) := by simpa [allocLocals] using hrun.symm
    simp
  | cons p ps ih =>
    intro fc hmin hfree hinv res hrun
    by_cases hp : p = []
    · rw [allocLocals, hp] at hrun
      simp [newVariable] at hrun
    · set b := encodeIdent p with hb
      set c := countOf fc.scope.allVars b with hc
      set name0 := suffixedName b c with hname0
      set fc2 := FuncContext.mk
        (Scope.mk (setCount fc.scope.allVars b (c + 1))
          (fc.scope.localVars ++ [name0]) fc.scope.objectNames)
        fc.parents fc.instanceObject fc.instanceTArgs fc.pkgCtx with hfc2
      rw [allocLocals_cons_some fc p ps name0 fc2
        (newVariable_natural fc hmin p hp)] at hrun
      have hbfree : 36 ∉ b := hfree p (List.mem_cons_self p ps)
      match hres : allocLocals fc2 ps with
      | none => rw [hres] at hrun; simp at hrun
      | some (ns, fc3) =>
        rw [hres] at hrun
        obtain rfl : res = (name0 :: ns, fc3) := (Option.some.inj hrun).symm
        have hinv2 : AllocInv fc2.scope.allVars fc2.scope.localVars := by
          intro m hm
          rcases List.mem_append.1 hm with hmold | hmnew
          · obtain ⟨b', n', hb', hmeq, hn'⟩ := hinv m hmold
            refine ⟨b', n', hb', hmeq, ?_⟩
            show n' < countOf (setCount fc.scope.allVars b (c + 1)) b'
            rw [countOf_setCount]
            by_cases hbb : b = b'
            · subst hbb
              rw [if_pos rfl]
              omega
            · rw [if_neg hbb]
              exact hn'
          · refine ⟨b, c, hbfree, by simpa using hmnew, ?_⟩
            show c < countOf (setCount fc.scope.allVars b (c + 1)) b
            rw [countOf_setCount]
            simp
        have hfree2 : ∀ q ∈ ps, 36 ∉ encodeIdent q :=
          fun q hq => hfree q (List.mem_cons_of_mem p hq)
        obtain ⟨ihl, ihdis, ihnd⟩ :=
          ih fc2 (by simp [hfc2, hmin]) hfree2 hinv2 (ns, fc3) hres
        have hlocal2 : fc2.scope.localVars = fc.scope.localVars ++ [name0] := rfl
        have hnotold : ∀ m ∈ fc.scope.localVars, m ≠ name0 := by
          intro m hm hmeq
          obtain ⟨b', n', hb', hmeq', hn'⟩ := hinv m hm
          obtain ⟨hbb, hnn⟩ :=
            suffixedName_injective hb' hbfree (hmeq'.symm.trans hmeq)
          subst hbb
          omega
        refine ⟨?_, ?_, ?_⟩
        · show fc3.scope.localVars = fc.scope.localVars ++ (name0 :: ns)
          rw [ihl, hlocal2]
          simp
        · intro m hm
          simp only [List.mem_cons]
          rintro (rfl | hmns)
          · exact hnotold _ hm rfl
          · exact ihdis m (by simp [hlocal2, hm]) hmns
        · refine List.nodup_cons.2 ⟨?_, ihnd⟩
          exact ihdis name0 (by simp [hlocal2])

end GopherJS.Compiler

namespace GopherJS.Compiler

/-- C1 counterexample: natural-mode allocations are not pairwise distinct
for arbitrary proposed names. Allocating "x" eleven times yields
"x", "x$1", ..., "x$10"; then allocating the name with bytes
(0x78, 0x10) sanitizes to "x$10" (QueryEscape turns byte 0x10 into "%10"
and encodeIdent replaces "%" with "$"), whose count is zero, so "x$10"
is returned a second time. -/
theorem C1_counterexample :
    ¬ (((allocLocals naturalEmptyCtx
          (List.replicate 11 [120] ++ [[120, 16]])).map Prod.fst).getD
        []).Nodup := by
  decide

/-- C1 (amended): in natural naming mode, any sequence of allocations
whose sanitized proposed names are free of the separator byte `$` returns
pairwise distinct names, and those names are exactly the live local names
of the scope afterward; requesting "x" three times in one scope returns
"x", "x$1", "x$2". -/
theorem C1_name_uniqueness :
    (∀ (ps : List (List Nat)) (ns : List (List Nat)) (fcF : FuncContext),
      (∀ p ∈ ps, 36 ∉ encodeIdent p) →
      allocLocals naturalEmptyCtx ps = some (ns, fcF) →
      ns.Nodup ∧ fcF.scope.localVars = ns) ∧
    ((allocLocals naturalEmptyCtx [[120], [120], [120]]).map Prod.fst
      = some [[120], [120, 36, 49], [120, 36, 50]]) := by
  refine ⟨fun ps ns fcF hfree hrun => ?_, by decide⟩
  obtain ⟨hl, _, hnd⟩ :=
    allocLocals_spec ps naturalEmptyCtx rfl hfree
      (by intro m hm; simp [naturalEmptyCtx] at hm) (ns, fcF) hrun
  exact ⟨hnd, by simpa [naturalEmptyCtx] using hl⟩

/-- Witness for C1 on two allocations of the proposed name "h". -/
theorem C1_name_uniqueness_witness :
    ([[104], [104, 36, 49]] : List (List Nat)).Nodup ∧
    (FuncContext.mk (Scope.mk [([104], 2)] [[104], [104, 36, 49]] []) []
        none [] (PkgContext.mk false 0 [] [] [] [])).scope.localVars
      = [[104], [104, 36, 49]] :=
  C1_name_uniqueness.1 [[104], [104]] _ _ (by decide) (by decide)

end GopherJS.Compiler

namespace GopherJS.Compiler

/-! ## Minified allocation sequence (C7) -/

/-- A funcContext with empty naming state and minified naming. -/
def minifiedEmptyCtx : FuncContext :=
  FuncContext.mk (Scope.mk [] [] []) [] none []
    (PkgContext.mk true 0 [] [] [] [])

/-- The count table after the first `K` minified allocations in a fresh
scope: candidates `0` to `K - 1`, each with count 1, in order. -/
def minState (offset K : Nat) : List (List Nat × Nat) :=
  (List.range K).map (fun j => (minName offset j, 1))

/-- A run of `k` allocations through `newVariable` with the fixed proposed
name "v" (the proposed name is ignored under minification) at the given
level, returning the allocated names in order. -/
def allocSeq (fc : FuncContext) (pkgLevel : Bool) : Nat → Option (List (List Nat))
  | 0 => some []
  | k + 1 =>
    match newVariable fc [118] pkgLevel with
    | none => none
    | some (n, fc2) =>
      match allocSeq fc2 pkgLevel k with
      | none => none
      | some ns => some (n :: ns)

lemma countOf_minNames (offset : Nat) (js : List Nat) (i : Nat) :
    countOf (js.map (fun j => (minName offset j, 1))) (minName offset i)
      = if i ∈ js then 1 else 0 := by
  induction js with
  | nil => simp [countOf]
  | cons j js ih =>
    by_cases hj : j = i
    · subst hj
      simp [countOf]
    · have hne : minName offset j ≠ minName offset i :=
        fun h => hj (minName_injective offset h)
      have hij : i ≠ j := fun h => hj h.symm
      simp [countOf, hne, ih, hij]

lemma countOf_minState (offset K i : Nat) :
    countOf (minState offset K) (minName offset i) = if i < K then 1 else 0 := by
  rw [minState, countOf_minNames]
  simp

lemma setCount_fresh (l : List (List Nat × Nat)) (k : List Nat) (v : Nat)
    (h : ∀ e ∈ l, e.1 ≠ k) : setCount l k v = l ++ [(k, v)] := by
  induction l with
  | nil => simp [setCount]
  | cons e rest ih =>
    obtain ⟨ek, ev⟩ := e
    have hek : ek ≠ k := h (ek, ev) (List.mem_cons_self _ _)
    simp [setCount, hek]
    exact ih fun e he => h e (List.mem_cons_of_mem _ he)

lemma minState_succ (offset K : Nat) :
    minState offset (K + 1) = minState offset K ++ [(minName offset K, 1)] := by
  simp [minState, List.range_succ]

lemma setCount_minState (offset K : Nat) :
    setCount (minState offset K) (minName offset K) 1 = minState offset (K + 1) := by
  rw [minState_succ, setCount_fresh]
  intro e he
  rw [minState] at he
  obtain ⟨j, hj, rfl⟩ := List.mem_map.1 he
  intro hcontra
  have := minName_injective offset hcontra
  simp at hj
  omega

lemma minifySearch_minState (offset K : Nat) :
    ∀ d i, i + d = K →
      minifySearch (minState offset K) offset (d + 1) i
        = some (minName offset K) := by
  intro d
  induction d with
  | zero =>
    intro i hi
    have hiK : i = K := by omega
    subst hiK
    simp only [minifySearch, countOf_minState, lt_irrefl, if_false]
    simp
  | succ d ih =>
    intro i hi
    have hcount : countOf (minState offset K) (minName offset i) = 1 := by
      rw [countOf_minState, if_pos (by omega)]
    simp only [minifySearch, hcount, Nat.one_ne_zero, if_false]
    exact ih (i + 1) (by omega)

lemma minState_length (offset K : Nat) : (minState offset K).length = K := by
  simp [minState]

lemma newVariable_minified_step (pkgLevel : Bool) (K : Nat)
    (lv : List (List Nat)) (onames : List (Nat × List Nat))
    (iobj : Option Nat) (itargs : List Nat) (pc : PkgContext)
    (hmin : pc.minify = true) :
    newVariable
      (FuncContext.mk
        (Scope.mk (minState (if pkgLevel then 65 else 97) K) lv onames)
        [] iobj itargs pc) [118] pkgLevel
      = some (minName (if pkgLevel then 65 else 97) K,
          FuncContext.mk
            (Scope.mk (minState (if pkgLevel then 65 else 97) (K + 1))
              (if pkgLevel then lv
               else lv ++ [minName (if pkgLevel then 65 else 97) K])
              onames)
            [] iobj itargs pc) := by
  cases pkgLevel
  case false =>
    have hsearch := minifySearch_minState 97 K K 0 (by omega)
    have hcount := countOf_minState 97 K K
    rw [if_neg (lt_irrefl K)] at hcount
    have hset := setCount_minState 97 K
    simp [newVariable, hmin, minState_length, hsearch, hcount, hset,
      suffixedName]
  case true =>
    have hsearch := minifySearch_minState 65 K K 0 (by omega)
    have hcount := countOf_minState 65 K K
    rw [if_neg (lt_irrefl K)] at hcount
    have hset := setCount_minState 65 K
    simp [newVariable, hmin, minState_length, hsearch, hcount, hset,
      suffixedName]

lemma allocSeq_succ_some (fc : FuncContext) (pkgLevel : Bool) (k : Nat)
    (n : List Nat) (fc2 : FuncContext)
    (h : newVariable fc [118] pkgLevel = some (n, fc2)) :
    allocSeq fc pkgLevel (k + 1)
      = match allocSeq fc2 pkgLevel k with
        | none => none
        | some ns => some (n :: ns) := by
  rw [allocSeq, h]

lemma allocSeq_minState (pkgLevel : Bool) :
    ∀ (k K : Nat) (lv : List (List Nat)) (onames : List (Nat × List Nat))
      (iobj : Option Nat) (itargs : List Nat) (pc : PkgContext),
      pc.minify = true →
      allocSeq
        (FuncContext.mk
          (Scope.mk (minState (if pkgLevel then 65 else 97) K) lv onames)
          [] iobj itargs pc) pkgLevel k
        = some ((List.range' K k).map (minName (if pkgLevel then 65 else 97))) := by
  intro k
  induction k with
  | zero => intro K lv onames iobj itargs pc hmin; simp [allocSeq]
  | succ k ih =>
    intro K lv onames iobj itargs pc hmin
    rw [allocSeq_succ_some _ pkgLevel k _ _
      (newVariable_minified_step pkgLevel K lv onames iobj itargs pc hmin)]
    rw [ih (K + 1)
      (if pkgLevel then lv
       else lv ++ [minName (if pkgLevel then 65 else 97) K])
      onames iobj itargs pc hmin]
    simp [List.range'_succ]

/-- C7: from a fresh scope, the sequence of minified allocations at module
level (pkgLevel) is exactly A, B, ..., Z, AA, AB, ... — the Kth (0-based)
allocation is the Kth string of the uppercase bijective base-26
sequence — and at function level it is the analogous lowercase sequence;
a candidate already present in the scope's count table is skipped
(with "A" already recorded, the first module-level allocation is "B"). -/
theorem C7_minified_sequence :
    (∀ K : Nat, allocSeq minifiedEmptyCtx true (K + 1)
      = some ((List.range (K + 1)).map (minName 65))) ∧
    (∀ K : Nat, allocSeq minifiedEmptyCtx false (K + 1)
      = some ((List.range (K + 1)).map (minName 97))) ∧
    ((newVariable
        (FuncContext.mk (Scope.mk [([65], 1)] [] []) [] none []
          (PkgContext.mk true 0 [] [] [] [])) [118] true).map Prod.fst
      = some [66]) := by
  refine ⟨fun K => ?_, fun K => ?_, by decide⟩
  · have h := allocSeq_minState true (K + 1) 0 [] [] none []
      (PkgContext.mk true 0 [] [] [] []) rfl
    simpa [minifiedEmptyCtx, minState, List.range_eq_range'] using h
  · have h := allocSeq_minState false (K + 1) 0 [] [] none []
      (PkgContext.mk true 0 [] [] [] []) rfl
    simpa [minifiedEmptyCtx, minState, List.range_eq_range'] using h

end GopherJS.Compiler

namespace GopherJS.Compiler

/-! ## objectName, instName and DCE dependencies (C9)

`objectName` (utils.go lines 416-445) and `instName` (lines 461-472) over
front-end objects carrying exactly the attributes the source consults.
`DeclareDCEDep` and the instance registry live outside this excerpt
(`compiler/internal/...`); they are modelled from the spec: 4.3 —
`declareDependency(from, to)` inserts an edge, the referencing side being
the current code-generation context, recorded here as the list of
declared (object identity, nest arguments, type arguments) targets; and
4.2 — instance registration is lazy, first-use-wins, with a small
monotonically increasing ID that stays stable (the index in the
registration list). `typeparams.FindNestingFunc(o)` is supplied by the
front end as the `nestingFuncId` attribute, and a trivial instance is one
with no direct and no inherited type arguments. -/

/-- The attributes of a resolved front-end object consulted by the naming
code: identity, source name, declaring package, exportedness, whether it
is a var or const (`isVarOrConst`), whether it is a var (for the escaping
check), whether it is a type name and whether its parent scope is the
package scope (the two inputs of `isPkgLevel`), and the enclosing generic
function, if any. -/
structure ObjInfo where
  id : Nat
  name : List Nat
  pkg : Nat
  exported : Bool
  isVarOrConst : Bool
  isVar : Bool
  isTypeName : Bool
  parentIsPkgScope : Bool
  nestingFuncId : Option Nat
  deriving DecidableEq

/-- Function `isPkgLevel` (utils.go lines 391-397): package-scope parent, or a
type name (named types always get a package-level variable). -/
def isPkgLevel (o : ObjInfo) : Bool := o.parentIsPkgScope || o.isTypeName

/-- A (possibly trivial) instantiation: the declaring object, the type
arguments applied directly, and the nest type arguments inherited from the
enclosing generic function. -/
structure Instance where
  object : ObjInfo
  tArgs : List Nat
  tNest : List Nat
  deriving DecidableEq

/-- Method `inst.IsTrivial()`: no direct and no inherited type arguments
(modelled from the spec: a non-generic entity has exactly one trivial
instantiation with empty argument lists). -/
def Instance.IsTrivial (i : Instance) : Bool := i.tArgs.isEmpty && i.tNest.isEmpty

/-- Method `fc.pkgCtx.DeclareDCEDep(o, tNest, tArgs)`: records the dependency
edge from the current code-generation context to the given
instantiation. -/
def declareDCEDep (fc : FuncContext) (oid : Nat) (tNest tArgs : List Nat) :
    FuncContext :=
  FuncContext.mk fc.scope fc.parents fc.instanceObject fc.instanceTArgs
    (PkgContext.mk fc.pkgCtx.minify fc.pkgCtx.pkg
      ((oid, tNest, tArgs) :: fc.pkgCtx.dceDeps)
      fc.pkgCtx.instanceIDs fc.pkgCtx.pkgVars fc.pkgCtx.escapingVars)

/-- Association lookup by number key. -/
def lookupByNat (l : List (Nat × List Nat)) (k : Nat) : Option (List Nat) :=
  match l with
  | [] => none
  | (k2, v) :: rest => if k2 = k then some v else lookupByNat rest k

/-- Association store by number key: replace the first entry or append. -/
def setByNat (l : List (Nat × List Nat)) (k : Nat) (v : List Nat) :
    List (Nat × List Nat) :=
  match l with
  | [] => [(k, v)]
  | (k2, v2) :: rest =>
    if k2 = k then (k2, v) :: rest else (k2, v2) :: setByNat rest k v

/-- Method `fc.pkgVar` (utils.go lines 371-381): `$pkg` for the current package,
the registered import variable otherwise, with the
`$packages["..."]` expression as fallback (the package identity stands in
for the import path). -/
def pkgVar (fc : FuncContext) (pkg : Nat) : List Nat :=
  if pkg = fc.pkgCtx.pkg then [36, 112, 107, 103]
  else
    match lookupByNat fc.pkgCtx.pkgVars pkg with
    | some v => v
    | none =>
      [36, 112, 97, 99, 107, 97, 103, 101, 115, 91, 34]
        ++ decDigits pkg ++ [34, 93]

/-- Method `assignedObjectName` (utils.go lines 399-411) over the scope chain:
the parent chain is consulted before this context's own table. -/
def assignedObjectNameScopes : List Scope → Nat → Option (List Nat)
  | [], _ => none
  | s :: rest, oid =>
    match assignedObjectNameScopes rest oid with
    | some name => some name
    | none => lookupByNat s.objectNames oid

/-- Method `fc.assignedObjectName(o)`. -/
def assignedObjectName (fc : FuncContext) (oid : Nat) : Option (List Nat) :=
  assignedObjectNameScopes (fc.scope :: fc.parents) oid

/-- Update of the outermost (root, package-level) scope in a nonempty
parent list. -/
def updateLastScope (f : Scope → Scope) : List Scope → List Scope
  | [] => []
  | [s] => [f s]
  | s :: rest => s :: updateLastScope f rest

/-- Storing a freshly assigned name: `fc.root().objectNames[o] = name` for
package-level objects, `fc.objectNames[o] = name` otherwise. -/
def storeObjectName (fc : FuncContext) (pkgLevel : Bool) (oid : Nat)
    (name : List Nat) : FuncContext :=
  if pkgLevel then
    match fc.parents with
    | [] => FuncContext.mk
        (Scope.mk fc.scope.allVars fc.scope.localVars
          (setByNat fc.scope.objectNames oid name))
        [] fc.instanceObject fc.instanceTArgs fc.pkgCtx
    | p :: ps => FuncContext.mk fc.scope
        (updateLastScope
          (fun s => Scope.mk s.allVars s.localVars
            (setByNat s.objectNames oid name)) (p :: ps))
        fc.instanceObject fc.instanceTArgs fc.pkgCtx
  else
    FuncContext.mk
      (Scope.mk fc.scope.allVars fc.scope.localVars
        (setByNat fc.scope.objectNames oid name))
      fc.parents fc.instanceObject fc.instanceTArgs fc.pkgCtx

/-- The escaping-variable boxing of the returned reference (utils.go lines
441-444): an escaping var is referenced as `name[0]`. -/
def escapingWrap (fc : FuncContext) (o : ObjInfo) (name : List Nat) :
    List Nat :=
  if o.isVar && fc.pkgCtx.escapingVars.contains o.id then name ++ [91, 48, 93]
  else name

/-- The nest type arguments declared for a package-level object: this
context's type arguments exactly when the object is nested in the function
this context generates (utils.go lines 418-422). -/
def nestTArgsFor (fc : FuncContext) (o : ObjInfo) : List Nat :=
  if o.nestingFuncId = fc.instanceObject then fc.instanceTArgs else []

/-- Method `funcContext.objectName` (utils.go lines 416-445): a package-level
object declares a DCE dependency on its (nest-instantiated) declaration;
imported or exported package-level vars and consts are referenced through
their package variable; otherwise the memoized name is returned, or a new
one is allocated (and memoized at the root for package-level objects);
escaping vars are dereferenced with `[0]`. -/
def objectName (fc : FuncContext) (o : ObjInfo) :
    Option (List Nat × FuncContext) :=
  let fc1 := if isPkgLevel o then declareDCEDep fc o.id (nestTArgsFor fc o) []
             else fc
  if isPkgLevel o ∧ (o.pkg ≠ fc.pkgCtx.pkg ∨ (o.isVarOrConst ∧ o.exported)) then
    some (pkgVar fc1 o.pkg ++ 46 :: o.name, fc1)
  else
    match assignedObjectName fc1 o.id with
    | some name => some (escapingWrap fc1 o name, fc1)
    | none =>
      match newVariable fc1 o.name (isPkgLevel o) with
      | none => none
      | some (name, fc2) =>
        let fc3 := storeObjectName fc2 (isPkgLevel o) o.id name
        some (escapingWrap fc3 o name, fc3)

/-- First-occurrence index of a registered argument tuple. -/
def indexOfKey (l : List (Nat × List Nat × List Nat))
    (x : Nat × List Nat × List Nat) : Option Nat :=
  match l with
  | [] => none
  | y :: rest => if y = x then some 0 else (indexOfKey rest x).map (· + 1)

/-- Method `fc.pkgCtx.instanceSet.ID(inst)`: the first-use-wins stable integer ID
of the exact argument-tuple identity, registering it on first use. -/
def instanceSetID (fc : FuncContext) (inst : Instance) : Nat × FuncContext :=
  let key := (inst.object.id, inst.tNest, inst.tArgs)
  match indexOfKey fc.pkgCtx.instanceIDs key with
  | some i => (i, fc)
  | none =>
    (fc.pkgCtx.instanceIDs.length,
      FuncContext.mk fc.scope fc.parents fc.instanceObject fc.instanceTArgs
        (PkgContext.mk fc.pkgCtx.minify fc.pkgCtx.pkg fc.pkgCtx.dceDeps
          (fc.pkgCtx.instanceIDs ++ [key]) fc.pkgCtx.pkgVars
          fc.pkgCtx.escapingVars))

/-- Method `funcContext.instName` (utils.go lines 461-472): the object's name for
a trivial instance; otherwise a DCE dependency on the exact instantiation
is declared and the name is the object's name indexed by the instance ID
(the human-readable type-argument annotation, which must not affect
identity, is omitted). -/
def instName (fc : FuncContext) (inst : Instance) :
    Option (List Nat × FuncContext) :=
  match objectName fc inst.object with
  | none => none
  | some (objN, fc1) =>
    if inst.IsTrivial then some (objN, fc1)
    else
      let fc2 := declareDCEDep fc1 inst.object.id inst.tNest inst.tArgs
      let r := instanceSetID fc2 inst
      some (objN ++ 91 :: decDigits r.1 ++ [93], r.2)

end GopherJS.Compiler

namespace GopherJS.Compiler

lemma some_pair_eq {α β : Type} {a n : α} {b fc2 : β}
    (h : some (a, b) = some (n, fc2)) : fc2 = b :=
  (congrArg Prod.snd (Option.some.inj h)).symm

lemma newVariable_pkgCtx (fc : FuncContext) (name : List Nat) (lvl : Bool)
    (n : List Nat) (fc2 : FuncContext)
    (h : newVariable fc name lvl = some (n, fc2)) :
    fc2.pkgCtx = fc.pkgCtx := by
  by_cases hname : name = []
  · simp [newVariable, hname] at h
  · rw [newVariable, if_neg hname] at h
    rcases hpick : (if fc.pkgCtx.minify then
        minifySearch fc.scope.allVars (if lvl then 65 else 97)
          (fc.scope.allVars.length + 1) 0
      else some (encodeIdent name)) with _ | name2
    · rw [hpick] at h
      simp at h
    · rw [hpick] at h
      cases lvl <;>
        · simp at h
          obtain ⟨-, h2⟩ := h
          subst h2
          rfl

lemma storeObjectName_pkgCtx (fc : FuncContext) (lvl : Bool) (oid : Nat)
    (name : List Nat) :
    (storeObjectName fc lvl oid name).pkgCtx = fc.pkgCtx := by
  rw [storeObjectName]
  split
  · split <;> rfl
  · rfl

lemma objectName_deps (fc : FuncContext) (o : ObjInfo) (n : List Nat)
    (fc1 : FuncContext) (h : objectName fc o = some (n, fc1)) :
    fc1.pkgCtx.dceDeps
      = if isPkgLevel o then (o.id, nestTArgsFor fc o, []) :: fc.pkgCtx.dceDeps
        else fc.pkgCtx.dceDeps := by
  rw [objectName] at h
  set fcd := if isPkgLevel o then declareDCEDep fc o.id (nestTArgsFor fc o) []
             else fc with hfcd
  have hdeps : fcd.pkgCtx.dceDeps
      = if isPkgLevel o then (o.id, nestTArgsFor fc o, []) :: fc.pkgCtx.dceDeps
        else fc.pkgCtx.dceDeps := by
    rw [hfcd]
    split <;> rfl
  by_cases hc : isPkgLevel o ∧ (o.pkg ≠ fc.pkgCtx.pkg ∨ (o.isVarOrConst ∧ o.exported))
  · rw [if_pos hc] at h
    rw [some_pair_eq h]
    exact hdeps
  · rw [if_neg hc] at h
    cases hassigned : assignedObjectName fcd o.id with
    | some name2 =>
      rw [hassigned] at h
      rw [some_pair_eq h]
      exact hdeps
    | none =>
      rw [hassigned] at h
      cases hnv : newVariable fcd o.name (isPkgLevel o) with
      | none => rw [hnv] at h; simp at h
      | some r =>
        obtain ⟨name2, fcnv⟩ := r
        rw [hnv] at h
        rw [some_pair_eq h, storeObjectName_pkgCtx,
          newVariable_pkgCtx fcd _ _ _ _ hnv]
        exact hdeps

lemma instanceSetID_deps (fc : FuncContext) (inst : Instance) :
    (instanceSetID fc inst).2.pkgCtx.dceDeps = fc.pkgCtx.dceDeps := by
  rw [instanceSetID]
  cases indexOfKey fc.pkgCtx.instanceIDs (inst.object.id, inst.tNest, inst.tArgs) <;> rfl

lemma instName_eq_of_objectName (fc : FuncContext) (inst : Instance)
    (objN : List Nat) (fc1 : FuncContext)
    (hobj : objectName fc inst.object = some (objN, fc1)) :
    instName fc inst
      = if inst.IsTrivial then some (objN, fc1)
        else some (objN ++ 91
            :: decDigits (instanceSetID
              (declareDCEDep fc1 inst.object.id inst.tNest inst.tArgs) inst).1
            ++ [93],
          (instanceSetID
            (declareDCEDep fc1 inst.object.id inst.tNest inst.tArgs) inst).2) := by
  rw [instName, hobj]

/-- C9 counterexample: a trivial instantiation of a non-package-level
object. `instName` resolves the name through `objectName`, which declares
a DCE dependency only for package-level objects, so this call records no
edge at all: the dependency list stays empty. -/
theorem C9_counterexample :
    ((instName naturalEmptyCtx
        (Instance.mk (ObjInfo.mk 7 [118] 0 false true true false false none)
          [] [])).map
      (fun r => r.2.pkgCtx.dceDeps)) = some [] := by
  decide

/-- C9 (amended): every `instName` call on a non-trivial instantiation
records the dependency edge to exactly that instantiation; an `instName`
call on a trivial instantiation records the edge (through `objectName`,
with the context's nest arguments) precisely when the object is
package-level — a trivial instance of a non-package-level object records
nothing. -/
theorem C9_instName_dce_dependency :
    (∀ (fc : FuncContext) (inst : Instance) (n : List Nat)
        (fc2 : FuncContext),
      inst.IsTrivial = false → instName fc inst = some (n, fc2) →
      (inst.object.id, inst.tNest, inst.tArgs) ∈ fc2.pkgCtx.dceDeps) ∧
    (∀ (fc : FuncContext) (inst : Instance) (n : List Nat)
        (fc2 : FuncContext),
      isPkgLevel inst.object = true → instName fc inst = some (n, fc2) →
      (inst.object.id, nestTArgsFor fc inst.object, [])
        ∈ fc2.pkgCtx.dceDeps) := by
  constructor
  · intro fc inst n fc2 htriv h
    cases hobj : objectName fc inst.object with
    | none => rw [instName, hobj] at h; simp at h
    | some r =>
      obtain ⟨objN, fc1⟩ := r
      rw [instName_eq_of_objectName fc inst objN fc1 hobj,
        if_neg (by simp [htriv])] at h
      rw [some_pair_eq h, instanceSetID_deps]
      exact List.mem_cons_self _ _
  · intro fc inst n fc2 hlvl h
    cases hobj : objectName fc inst.object with
    | none => rw [instName, hobj] at h; simp at h
    | some r =>
      obtain ⟨objN, fc1⟩ := r
      rw [instName_eq_of_objectName fc inst objN fc1 hobj] at h
      have hd := objectName_deps fc inst.object objN fc1 hobj
      rw [hlvl] at hd
      simp only [if_true] at hd
      have hmem : (inst.object.id, nestTArgsFor fc inst.object, [])
          ∈ fc1.pkgCtx.dceDeps := by
        rw [hd]
        exact List.mem_cons_self _ _
      by_cases htriv : inst.IsTrivial
      · rw [if_pos htriv] at h
        rw [some_pair_eq h]
        exact hmem
      · rw [if_neg htriv] at h
        rw [some_pair_eq h, instanceSetID_deps]
        exact List.mem_cons_of_mem _ hmem

/-- A non-trivial instantiation of a package-level generic function
object, for the C9 witness. -/
def c9Inst : Instance :=
  Instance.mk (ObjInfo.mk 5 [102] 0 false false false false true none) [3] []

/-- The context after `instName naturalEmptyCtx c9Inst`: the name "f" is
allocated and memoized, and both the declaration edge and the exact
instantiation edge are recorded. -/
def c9After : FuncContext :=
  FuncContext.mk (Scope.mk [([102], 1)] [] [(5, [102])]) [] none []
    (PkgContext.mk false 0 [(5, [], [3]), (5, [], [])] [(5, [], [3])] [] [])

/-- Witness for C9 at a non-trivial instantiation of a package-level
function object (which also exercises the package-level conjunct). -/
theorem C9_instName_dce_dependency_witness :
    c9Inst.IsTrivial = false ∧ isPkgLevel c9Inst.object = true ∧
    (5, [], [3]) ∈ c9After.pkgCtx.dceDeps ∧
    (5, [], []) ∈ c9After.pkgCtx.dceDeps :=
  ⟨by decide, by decide,
   C9_instName_dce_dependency.1 naturalEmptyCtx c9Inst [102, 91, 48, 93]
     c9After (by decide) (by decide),
   C9_instName_dce_dependency.2 naturalEmptyCtx c9Inst [102, 91, 48, 93]
     c9After (by decide) (by decide)⟩

end GopherJS.Compiler
